import Mathlib

/-!
Verification of the radius-normalization core of `avl_bus_proj/folium_example.py`
(`compute_radius_from_series`).

Modelling choices:
* An input series (after `pd.to_numeric(..., errors="coerce")`) is a
  `List (Option ℚ)`: `none` is a missing (non-coercible / NaN) entry, `some v`
  a numeric one.  All batch statistics (median, quantiles, min, max, clipping)
  are exact rational arithmetic; only the `log` branch leaves ℚ, via
  `Real.log`, so output radii live in ℝ.
* `min_r`, `max_r` are real parameters; `clip_pct` is rational.
* pandas' `s.min()` / `s.max()` / `norm.max()` on an empty series are NaN and
  every comparison with NaN is `False`; on the empty series the value of
  `listMin`/`listMax`/`listMaxR` is never used in any output element (all maps
  are over empty lists) and the default `0` makes the branch conditions
  evaluate to `False` exactly as `NaN > 0` does.
-/

namespace AvlBusStopViewer

/-- Minimum of a list of rationals (`s.min()`); `0` on the empty list, where
pandas would give NaN (see module docstring: the value is never used there). -/
def listMin : List ℚ → ℚ
  | [] => 0
  | x :: xs => xs.foldl min x

/-- Maximum of a list of rationals (`s.max()`); `0` on the empty list. -/
def listMax : List ℚ → ℚ
  | [] => 0
  | x :: xs => xs.foldl max x

/-- Maximum of a list of reals (`norm.max()` in the log branch); `0` on the
empty list, so that the guard `maxv > 0` is `False` there just as for NaN. -/
noncomputable def listMaxR : List ℝ → ℝ
  | [] => 0
  | x :: xs => xs.foldl max x

/-- The input list in ascending order. -/
def sortedAsc (xs : List ℚ) : List ℚ :=
  xs.insertionSort (· ≤ ·)

/-- pandas `Series.median` on a series without NaNs: middle element of the
sorted list for odd length, mean of the two middle elements for even length.
(Only ever applied to non-empty lists; on `[]` it returns `0`, while pandas
would give NaN — `fillValue` below performs that NaN test separately, as the
source does with `np.isnan(s.median())`.) -/
def median (xs : List ℚ) : ℚ :=
  if xs.length % 2 = 1 then (sortedAsc xs).getD (xs.length / 2) 0
  else ((sortedAsc xs).getD (xs.length / 2 - 1) 0 + (sortedAsc xs).getD (xs.length / 2) 0) / 2

/-- pandas `Series.quantile` with the default linear interpolation on a series
without NaNs: with `h = (n-1)q`, interpolate between the order statistics at
positions `⌊h⌋` and `⌊h⌋+1`.  Callers in this file use `0 < q < 1`. -/
def quantile (xs : List ℚ) (q : ℚ) : ℚ :=
  let h : ℚ := ((xs.length : ℚ) - 1) * q
  let i : ℕ := (⌊h⌋).toNat
  let lo := (sortedAsc xs).getD i 0
  let hi := (sortedAsc xs).getD (i + 1) lo
  lo + (h - (i : ℚ)) * (hi - lo)

/-- The value used by `s.fillna(s.median() if not np.isnan(s.median()) else 0)`:
the median of the non-missing entries, or `0` when every entry is missing
(in which case `s.median()` is NaN). -/
def fillValue (series : List (Option ℚ)) : ℚ :=
  let nonMissing := series.filterMap id
  if nonMissing.isEmpty then 0 else median nonMissing

/-- The series after missing-value imputation (line
`s = s.fillna(s.median() if not np.isnan(s.median()) else 0)`). -/
def imputed (series : List (Option ℚ)) : List ℚ :=
  series.map (fun x => x.getD (fillValue series))

/-- One element clamped into `[lo, hi]`, numpy `clip` semantics:
`min(max(x, lo), hi)`. -/
def clamp (lo hi x : ℚ) : ℚ :=
  min hi (max lo x)

/-- The winsorization step (`if clip_pct and 0 < clip_pct < 50: ... s.clip(lo, hi)`).
The Python truthiness test `clip_pct` is redundant with `0 < clip_pct`. -/
def clipped (s : List ℚ) (clip_pct : ℚ) : List ℚ :=
  if 0 < clip_pct ∧ clip_pct < 50 then
    let lo := quantile s (clip_pct / 100)
    let hi := quantile s (1 - clip_pct / 100)
    s.map (fun x => clamp lo hi x)
  else s

/-- The log-branch pre-normalization values: `np.log1p(s - s.min())`. -/
noncomputable def logNorms (s : List ℚ) : List ℝ :=
  (s.map (fun x => x - listMin s)).map (fun x : ℚ => Real.log (1 + (x : ℝ)))

/-- `compute_radius_from_series(series, scale, min_r, max_r, clip_pct)`.
Coercion (`pd.to_numeric(series, errors="coerce")`) is the identity here since
the input is already `List (Option ℚ)` with `none` for non-coercible entries. -/
noncomputable def compute_radius_from_series (series : List (Option ℚ)) (scale : String)
    (min_r max_r : ℝ) (clip_pct : ℚ) : List ℝ :=
  let s1 := imputed series
  let s2 := clipped s1 clip_pct
  if scale = "log" then
    let norm := logNorms s2
    let maxv := listMaxR norm
    let norm2 := if 0 < maxv then norm.map (fun x => x / maxv) else norm.map (fun _ => (0 : ℝ))
    norm2.map (fun n => min_r + n * (max_r - min_r))
  else
    let mn := listMin s2
    let denom := listMax s2 - mn
    let norm := if 0 < denom then s2.map (fun x => ((x - mn : ℚ) : ℝ) / ((denom : ℚ) : ℝ))
      else s2.map (fun _ => (1 / 2 : ℝ))
    norm.map (fun n => min_r + n * (max_r - min_r))

/-- Variant of `compute_radius_from_series` with the winsorization step removed
entirely (the reference point of the spec's "clipping skipped entirely"). -/
noncomputable def compute_radius_noclip (series : List (Option ℚ)) (scale : String)
    (min_r max_r : ℝ) : List ℝ :=
  let s2 := imputed series
  if scale = "log" then
    let norm := logNorms s2
    let maxv := listMaxR norm
    let norm2 := if 0 < maxv then norm.map (fun x => x / maxv) else norm.map (fun _ => (0 : ℝ))
    norm2.map (fun n => min_r + n * (max_r - min_r))
  else
    let mn := listMin s2
    let denom := listMax s2 - mn
    let norm := if 0 < denom then s2.map (fun x => ((x - mn : ℚ) : ℝ) / ((denom : ℚ) : ℝ))
      else s2.map (fun _ => (1 / 2 : ℝ))
    norm.map (fun n => min_r + n * (max_r - min_r))

/-- One element put through the winsorization step (with the batch statistics
of the full series `s`). -/
def clipOne (s : List ℚ) (clip_pct : ℚ) (x : ℚ) : ℚ :=
  if 0 < clip_pct ∧ clip_pct < 50 then
    clamp (quantile s (clip_pct / 100)) (quantile s (1 - clip_pct / 100)) x
  else x

/-- The normalized score of one (already clipped) value `w`, with the batch
statistics of the clipped series `s2`. -/
noncomputable def normOne (s2 : List ℚ) (scale : String) (w : ℚ) : ℝ :=
  if scale = "log" then
    if 0 < listMaxR (logNorms s2) then
      Real.log (1 + ((w - listMin s2 : ℚ) : ℝ)) / listMaxR (logNorms s2)
    else 0
  else
    if 0 < listMax s2 - listMin s2 then
      ((w - listMin s2 : ℚ) : ℝ) / ((listMax s2 - listMin s2 : ℚ) : ℝ)
    else 1 / 2

/-- The per-element radius map: what `compute_radius_from_series` does to the
imputed value at one position, all batch statistics taken from `series`. -/
noncomputable def radiusMap (series : List (Option ℚ)) (scale : String)
    (min_r max_r : ℝ) (clip_pct : ℚ) (v : ℚ) : ℝ :=
  min_r +
    normOne (clipped (imputed series) clip_pct) scale (clipOne (imputed series) clip_pct v) *
      (max_r - min_r)

theorem clipped_eq_map (s : List ℚ) (clip_pct : ℚ) :
    clipped s clip_pct = s.map (clipOne s clip_pct) := by
  unfold clipped clipOne
  split
  · rfl
  · exact (List.map_id s).symm

theorem map_ite_branch {α β : Type*} (c : Prop) [Decidable c] (f g : α → β) (l : List α) :
    (if c then l.map f else l.map g) = l.map (fun v => if c then f v else g v) := by
  by_cases h : c <;> simp [h]

theorem compute_radius_eq_map (series : List (Option ℚ)) (scale : String)
    (min_r max_r : ℝ) (clip_pct : ℚ) :
    compute_radius_from_series series scale min_r max_r clip_pct =
      (imputed series).map (radiusMap series scale min_r max_r clip_pct) := by
  by_cases hs : scale = "log" <;>
    simp only [compute_radius_from_series, hs, if_true, if_false,
      clipped_eq_map, logNorms, map_ite_branch, List.map_map] <;>
    refine List.map_congr_left fun a ha => ?_ <;>
    simp [radiusMap, normOne, hs, clipped_eq_map, logNorms, List.map_map, Function.comp_def]

theorem foldl_min_le_init {α : Type*} [LinearOrder α] : ∀ (l : List α) (a : α), l.foldl min a ≤ a
  | [], a => le_refl a
  | x :: xs, a => le_trans (foldl_min_le_init xs (min a x)) (min_le_left a x)

theorem foldl_min_le_of_mem {α : Type*} [LinearOrder α] :
    ∀ (l : List α) (a x : α), x ∈ l → l.foldl min a ≤ x
  | [], _, _, h => absurd h (List.not_mem_nil _)
  | x :: xs, a, y, h => by
    rcases List.mem_cons.mp h with rfl | h'
    · exact le_trans (foldl_min_le_init xs (min a y)) (min_le_right a y)
    · exact foldl_min_le_of_mem xs (min a x) y h'

theorem foldl_min_eq_or_mem {α : Type*} [LinearOrder α] :
    ∀ (l : List α) (a : α), l.foldl min a = a ∨ l.foldl min a ∈ l
  | [], a => Or.inl rfl
  | x :: xs, a => by
    rcases foldl_min_eq_or_mem xs (min a x) with h | h
    · rcases min_choice a x with h' | h'
      · exact Or.inl (by rw [List.foldl_cons, h, h'])
      · exact Or.inr (by rw [List.foldl_cons, h, h']; exact List.mem_cons_self x xs)
    · exact Or.inr (List.mem_cons_of_mem x h)

theorem le_foldl_max_init {α : Type*} [LinearOrder α] : ∀ (l : List α) (a : α), a ≤ l.foldl max a
  | [], a => le_refl a
  | x :: xs, a => le_trans (le_max_left a x) (le_foldl_max_init xs (max a x))

theorem le_foldl_max_of_mem {α : Type*} [LinearOrder α] :
    ∀ (l : List α) (a x : α), x ∈ l → x ≤ l.foldl max a
  | [], _, _, h => absurd h (List.not_mem_nil _)
  | x :: xs, a, y, h => by
    rcases List.mem_cons.mp h with rfl | h'
    · exact le_trans (le_max_right a y) (le_foldl_max_init xs (max a y))
    · exact le_foldl_max_of_mem xs (max a x) y h'

theorem foldl_max_eq_or_mem {α : Type*} [LinearOrder α] :
    ∀ (l : List α) (a : α), l.foldl max a = a ∨ l.foldl max a ∈ l
  | [], a => Or.inl rfl
  | x :: xs, a => by
    rcases foldl_max_eq_or_mem xs (max a x) with h | h
    · rcases max_choice a x with h' | h'
      · exact Or.inl (by rw [List.foldl_cons, h, h'])
      · exact Or.inr (by rw [List.foldl_cons, h, h']; exact List.mem_cons_self x xs)
    · exact Or.inr (List.mem_cons_of_mem x h)

theorem listMin_le {l : List ℚ} {x : ℚ} (h : x ∈ l) : listMin l ≤ x := by
  cases l with
  | nil => exact absurd h (List.not_mem_nil x)
  | cons y ys =>
    rcases List.mem_cons.mp h with rfl | h'
    · exact foldl_min_le_init ys x
    · exact foldl_min_le_of_mem ys y x h'

theorem listMin_mem {l : List ℚ} (h : l ≠ []) : listMin l ∈ l := by
  cases l with
  | nil => exact absurd rfl h
  | cons y ys =>
    rcases foldl_min_eq_or_mem ys y with h' | h'
    · show ys.foldl min y ∈ y :: ys
      rw [h']; exact List.mem_cons_self y ys
    · exact List.mem_cons_of_mem y h'

theorem le_listMax {l : List ℚ} {x : ℚ} (h : x ∈ l) : x ≤ listMax l := by
  cases l with
  | nil => exact absurd h (List.not_mem_nil x)
  | cons y ys =>
    rcases List.mem_cons.mp h with rfl | h'
    · exact le_foldl_max_init ys x
    · exact le_foldl_max_of_mem ys y x h'

theorem listMax_mem {l : List ℚ} (h : l ≠ []) : listMax l ∈ l := by
  cases l with
  | nil => exact absurd rfl h
  | cons y ys =>
    rcases foldl_max_eq_or_mem ys y with h' | h'
    · show ys.foldl max y ∈ y :: ys
      rw [h']; exact List.mem_cons_self y ys
    · exact List.mem_cons_of_mem y h'

theorem le_listMaxR {l : List ℝ} {x : ℝ} (h : x ∈ l) : x ≤ listMaxR l := by
  cases l with
  | nil => exact absurd h (List.not_mem_nil x)
  | cons y ys =>
    rcases List.mem_cons.mp h with rfl | h'
    · exact le_foldl_max_init ys x
    · exact le_foldl_max_of_mem ys y x h'

theorem listMaxR_mem {l : List ℝ} (h : l ≠ []) : listMaxR l ∈ l := by
  cases l with
  | nil => exact absurd rfl h
  | cons y ys =>
    rcases foldl_max_eq_or_mem ys y with h' | h'
    · show ys.foldl max y ∈ y :: ys
      rw [h']; exact List.mem_cons_self y ys
    · exact List.mem_cons_of_mem y h'

theorem sortedAsc_sorted (xs : List ℚ) : List.Sorted (· ≤ ·) (sortedAsc xs) :=
  List.sorted_insertionSort _ xs

theorem sortedAsc_perm (xs : List ℚ) : (sortedAsc xs).Perm xs :=
  List.perm_insertionSort _ xs

theorem length_sortedAsc (xs : List ℚ) : (sortedAsc xs).length = xs.length :=
  (sortedAsc_perm xs).length_eq

theorem mem_sortedAsc {xs : List ℚ} {x : ℚ} : x ∈ sortedAsc xs ↔ x ∈ xs :=
  (sortedAsc_perm xs).mem_iff

theorem getD_sortedAsc_const {l : List ℚ} {c : ℚ} (hc : ∀ x ∈ l, x = c) {i : ℕ}
    (hi : i < l.length) (d : ℚ) : (sortedAsc l).getD i d = c := by
  have hi' : i < (sortedAsc l).length := by rw [length_sortedAsc]; exact hi
  rw [List.getD_eq_getElem _ _ hi']
  exact hc _ (mem_sortedAsc.mp (List.getElem_mem hi'))

theorem median_const {l : List ℚ} {c : ℚ} (h : l ≠ []) (hc : ∀ x ∈ l, x = c) : median l = c := by
  have hn : 0 < l.length := List.length_pos.mpr h
  unfold median
  split
  · exact getD_sortedAsc_const hc (by omega) 0
  · rw [@getD_sortedAsc_const l c hc (l.length / 2 - 1) (by omega) 0,
      @getD_sortedAsc_const l c hc (l.length / 2) (by omega) 0]
    ring

theorem quantile_const {l : List ℚ} {c q : ℚ} (h : l ≠ []) (hq : q ≤ 1) (hc : ∀ x ∈ l, x = c) :
    quantile l q = c := by
  have hn : 0 < l.length := List.length_pos.mpr h
  have hcast : (1 : ℚ) ≤ (l.length : ℚ) := by exact_mod_cast hn
  have hh : ((l.length : ℚ) - 1) * q ≤ (l.length : ℚ) - 1 := by nlinarith
  have hfl : ⌊((l.length : ℚ) - 1) * q⌋ ≤ (l.length : ℤ) - 1 := by
    have h1 : ((l.length : ℚ) - 1) = (((l.length : ℤ) - 1 : ℤ) : ℚ) := by push_cast; ring
    calc ⌊((l.length : ℚ) - 1) * q⌋ ≤ ⌊((l.length : ℚ) - 1)⌋ := Int.floor_le_floor hh
      _ = (l.length : ℤ) - 1 := by rw [h1, Int.floor_intCast]
  have hi : (⌊((l.length : ℚ) - 1) * q⌋).toNat < l.length := by omega
  simp only [quantile]
  rw [getD_sortedAsc_const hc hi]
  by_cases h2 : (⌊((l.length : ℚ) - 1) * q⌋).toNat + 1 < l.length
  · rw [getD_sortedAsc_const hc h2 c]; ring
  · rw [List.getD_eq_default _ _ (by rw [length_sortedAsc]; omega)]; ring

theorem length_imputed (series : List (Option ℚ)) : (imputed series).length = series.length := by
  simp [imputed]

theorem length_clipped (s : List ℚ) (clip_pct : ℚ) : (clipped s clip_pct).length = s.length := by
  unfold clipped; split <;> simp

theorem clipped_all_const {s : List ℚ} {c : ℚ} (h : s ≠ []) (hc : ∀ x ∈ s, x = c)
    (clip_pct : ℚ) : ∀ x ∈ clipped s clip_pct, x = c := by
  intro x hx
  unfold clipped at hx
  split at hx
  · rename_i hcp
    rcases List.mem_map.mp hx with ⟨y, hy, rfl⟩
    rw [hc y hy, quantile_const h (by linarith [hcp.2]) hc,
      quantile_const h (by linarith [hcp.1]) hc]
    simp [clamp]
  · exact hc x hx

theorem clipOne_mem_clipped {s : List ℚ} {v : ℚ} (hv : v ∈ s) (clip_pct : ℚ) :
    clipOne s clip_pct v ∈ clipped s clip_pct := by
  rw [clipped_eq_map]
  exact List.mem_map_of_mem _ hv

theorem clipOne_mono (s : List ℚ) (clip_pct : ℚ) {x y : ℚ} (h : x ≤ y) :
    clipOne s clip_pct x ≤ clipOne s clip_pct y := by
  unfold clipOne clamp
  split
  · exact min_le_min (le_refl _) (max_le_max (le_refl _) h)
  · exact h

theorem log_shift_nonneg {mn w : ℚ} (h : mn ≤ w) :
    (0 : ℝ) ≤ Real.log (1 + ((w - mn : ℚ) : ℝ)) := by
  apply Real.log_nonneg
  have h0 : (0 : ℚ) ≤ w - mn := by linarith
  have h0' : (0 : ℝ) ≤ ((w - mn : ℚ) : ℝ) := by exact_mod_cast h0
  linarith

theorem log_shift_mem_logNorms {s2 : List ℚ} {w : ℚ} (hw : w ∈ s2) :
    Real.log (1 + ((w - listMin s2 : ℚ) : ℝ)) ∈ logNorms s2 := by
  unfold logNorms
  exact List.mem_map.mpr ⟨w - listMin s2, List.mem_map.mpr ⟨w, hw, rfl⟩, rfl⟩

theorem normOne_bounds {s2 : List ℚ} {w : ℚ} (hw : w ∈ s2) (scale : String) :
    0 ≤ normOne s2 scale w ∧ normOne s2 scale w ≤ 1 := by
  have hmn : listMin s2 ≤ w := listMin_le hw
  have hmx : w ≤ listMax s2 := le_listMax hw
  unfold normOne
  by_cases hs : scale = "log"
  · rw [if_pos hs]
    by_cases hmv : 0 < listMaxR (logNorms s2)
    · rw [if_pos hmv]
      have hlog0 := log_shift_nonneg hmn
      have hle : Real.log (1 + ((w - listMin s2 : ℚ) : ℝ)) ≤ listMaxR (logNorms s2) :=
        le_listMaxR (log_shift_mem_logNorms hw)
      exact ⟨div_nonneg hlog0 (le_of_lt hmv), (div_le_one hmv).mpr hle⟩
    · rw [if_neg hmv]; norm_num
  · rw [if_neg hs]
    by_cases hd : 0 < listMax s2 - listMin s2
    · rw [if_pos hd]
      have h1 : (0 : ℝ) ≤ ((w - listMin s2 : ℚ) : ℝ) := by
        exact_mod_cast (by linarith : (0 : ℚ) ≤ w - listMin s2)
      have h2 : ((w - listMin s2 : ℚ) : ℝ) ≤ ((listMax s2 - listMin s2 : ℚ) : ℝ) := by
        exact_mod_cast (by linarith : w - listMin s2 ≤ listMax s2 - listMin s2)
      have h3 : (0 : ℝ) < ((listMax s2 - listMin s2 : ℚ) : ℝ) := by exact_mod_cast hd
      exact ⟨div_nonneg h1 (le_of_lt h3), (div_le_one h3).mpr h2⟩
    · rw [if_neg hd]; norm_num

theorem normOne_mono {s2 : List ℚ} {w1 w2 : ℚ} (h1 : w1 ∈ s2) (h12 : w1 ≤ w2)
    (scale : String) : normOne s2 scale w1 ≤ normOne s2 scale w2 := by
  have hmn1 : listMin s2 ≤ w1 := listMin_le h1
  unfold normOne
  by_cases hs : scale = "log"
  · simp only [if_pos hs]
    by_cases hmv : 0 < listMaxR (logNorms s2)
    · simp only [if_pos hmv]
      have hx : (0 : ℝ) < 1 + ((w1 - listMin s2 : ℚ) : ℝ) := by
        have h0 : (0 : ℝ) ≤ ((w1 - listMin s2 : ℚ) : ℝ) := by
          exact_mod_cast (by linarith : (0 : ℚ) ≤ w1 - listMin s2)
        linarith
      have hxy : 1 + ((w1 - listMin s2 : ℚ) : ℝ) ≤ 1 + ((w2 - listMin s2 : ℚ) : ℝ) := by
        have hc : ((w1 - listMin s2 : ℚ) : ℝ) ≤ ((w2 - listMin s2 : ℚ) : ℝ) := by
          exact_mod_cast (by linarith : w1 - listMin s2 ≤ w2 - listMin s2)
        linarith
      have hlog := Real.log_le_log hx hxy
      gcongr
    · simp only [if_neg hmv]
      exact le_refl 0
  · simp only [if_neg hs]
    by_cases hd : 0 < listMax s2 - listMin s2
    · simp only [if_pos hd]
      have h3 : (0 : ℝ) < ((listMax s2 - listMin s2 : ℚ) : ℝ) := by exact_mod_cast hd
      have hc : ((w1 - listMin s2 : ℚ) : ℝ) ≤ ((w2 - listMin s2 : ℚ) : ℝ) := by
        exact_mod_cast (by linarith : w1 - listMin s2 ≤ w2 - listMin s2)
      gcongr
    · simp only [if_neg hd]
      exact le_refl (1 / 2)

theorem affine_bounds {min_r max_r n : ℝ} (hmm : min_r ≤ max_r) (h0 : 0 ≤ n) (h1 : n ≤ 1) :
    min_r ≤ min_r + n * (max_r - min_r) ∧ min_r + n * (max_r - min_r) ≤ max_r := by
  constructor <;> nlinarith

theorem imputed_ne_nil {series : List (Option ℚ)} (h : series ≠ []) : imputed series ≠ [] := by
  intro h0
  have hl := length_imputed series
  rw [h0, List.length_nil] at hl
  exact h (List.length_eq_zero.mp hl.symm)

theorem clipped_ne_nil {s : List ℚ} (h : s ≠ []) (clip_pct : ℚ) : clipped s clip_pct ≠ [] := by
  intro h0
  have hl := length_clipped s clip_pct
  rw [h0, List.length_nil] at hl
  exact h (List.length_eq_zero.mp hl.symm)

/-- C1: for every input series, every scale, every `clip_pct`, and `min_r ≤ max_r`,
every element of the sequence returned by `compute_radius_from_series` lies in the
closed interval `[min_r, max_r]`. -/
theorem radius_within_bounds (series : List (Option ℚ)) (scale : String)
    (min_r max_r : ℝ) (clip_pct : ℚ) (hmm : min_r ≤ max_r) :
    ∀ r ∈ compute_radius_from_series series scale min_r max_r clip_pct,
      min_r ≤ r ∧ r ≤ max_r := by
  intro r hr
  rw [compute_radius_eq_map] at hr
  rcases List.mem_map.mp hr with ⟨v, hv, rfl⟩
  unfold radiusMap
  obtain ⟨h0, h1⟩ := normOne_bounds (clipOne_mem_clipped hv clip_pct) scale
  exact affine_bounds hmm h0 h1

theorem radius_within_bounds_witness :
    ((11 / 2 : ℝ) ∈ compute_radius_from_series [some 0] "linear" 1 10 0) ∧
      ((1 : ℝ) ≤ 11 / 2 ∧ (11 / 2 : ℝ) ≤ 10) := by
  have h1 : imputed [some 0] = [0] := by simp [imputed]
  have h2 : clipped [0] 0 = [0] := by
    unfold clipped
    rw [if_neg]
    rintro ⟨h1', _⟩
    exact lt_irrefl 0 h1'
  have hd : listMax [(0 : ℚ)] - listMin [(0 : ℚ)] = 0 := by simp [listMax, listMin]
  have hm : (11 / 2 : ℝ) ∈ compute_radius_from_series [some 0] "linear" 1 10 0 := by
    simp only [compute_radius_from_series, h1, h2, hd,
      if_neg (show ¬(("linear" : String) = "log") by decide)]
    rw [if_neg (lt_irrefl (0 : ℚ))]
    simp only [List.map_cons, List.map_nil, List.mem_singleton]
    norm_num
  exact ⟨hm, radius_within_bounds [some 0] "linear" 1 10 0 (by norm_num) (11 / 2) hm⟩

/-- C2: for every non-empty batch whose post-imputation values are all equal,
`compute_radius_from_series` with scale `"log"` returns `min_r` at every
position. -/
theorem all_equal_log_radius_min (series : List (Option ℚ)) (c : ℚ) (min_r max_r : ℝ)
    (clip_pct : ℚ) (hne : series ≠ []) (hc : ∀ x ∈ imputed series, x = c) :
    ∀ r ∈ compute_radius_from_series series "log" min_r max_r clip_pct, r = min_r := by
  have h1 : imputed series ≠ [] := imputed_ne_nil hne
  have hc2 : ∀ x ∈ clipped (imputed series) clip_pct, x = c := clipped_all_const h1 hc clip_pct
  have h2 : clipped (imputed series) clip_pct ≠ [] := clipped_ne_nil h1 clip_pct
  have hmn : listMin (clipped (imputed series) clip_pct) = c := hc2 _ (listMin_mem h2)
  have hlogz : ∀ y ∈ logNorms (clipped (imputed series) clip_pct), y = 0 := by
    intro y hy
    unfold logNorms at hy
    rcases List.mem_map.mp hy with ⟨z, hz, rfl⟩
    rcases List.mem_map.mp hz with ⟨w, hw, rfl⟩
    rw [hc2 w hw, hmn]
    simp
  have hln : logNorms (clipped (imputed series) clip_pct) ≠ [] := by
    unfold logNorms
    simp [h2]
  have hmaxv : listMaxR (logNorms (clipped (imputed series) clip_pct)) = 0 :=
    hlogz _ (listMaxR_mem hln)
  intro r hr
  rw [compute_radius_eq_map] at hr
  rcases List.mem_map.mp hr with ⟨v, hv, rfl⟩
  unfold radiusMap normOne
  rw [if_pos rfl, if_neg (by rw [hmaxv]; exact lt_irrefl 0)]
  ring

theorem all_equal_log_radius_min_witness :
    ((3 : ℝ) ∈ compute_radius_from_series [some 5, some 5] "log" 3 16 2) ∧ (3 : ℝ) = 3 := by
  have h1 : imputed [some 5, some 5] = [5, 5] := by simp [imputed]
  have hcp : (0 : ℚ) < 2 ∧ (2 : ℚ) < 50 := by norm_num
  have hall : ∀ x ∈ [(5 : ℚ), 5], x = 5 := by simp
  have hq1 : quantile [(5 : ℚ), 5] (2 / 100) = 5 :=
    quantile_const (by simp) (by norm_num) hall
  have hq2 : quantile [(5 : ℚ), 5] (1 - 2 / 100) = 5 :=
    quantile_const (by simp) (by norm_num) hall
  have h2 : clipped [5, 5] 2 = [5, 5] := by
    rw [clipped_eq_map]
    simp only [clipOne, if_pos hcp, hq1, hq2, clamp, List.map_cons, List.map_nil]
    simp
  have hmn : listMin [(5 : ℚ), 5] = 5 := by simp [listMin]
  have h3 : logNorms [5, 5] = [0, 0] := by
    simp [logNorms, hmn, Real.log_one]
  have h4 : listMaxR [(0 : ℝ), 0] = 0 := by simp [listMaxR]
  have hm : (3 : ℝ) ∈ compute_radius_from_series [some 5, some 5] "log" 3 16 2 := by
    simp only [compute_radius_from_series, h1, h2, h3, h4, if_pos rfl,
      if_neg (lt_irrefl (0 : ℝ)), List.map_cons, List.map_nil, List.mem_cons]
    norm_num
  exact ⟨hm, all_equal_log_radius_min [some 5, some 5] 5 3 16 2 (by simp)
    (by rw [h1]; simp) 3 hm⟩

/-- C3: for every non-empty batch whose post-imputation values are all equal,
`compute_radius_from_series` with scale `"linear"` returns `(min_r + max_r) / 2`
(normalized score `1/2`, not `0`) at every position. -/
theorem all_equal_linear_radius_midpoint (series : List (Option ℚ)) (c : ℚ) (min_r max_r : ℝ)
    (clip_pct : ℚ) (hne : series ≠ []) (hc : ∀ x ∈ imputed series, x = c) :
    ∀ r ∈ compute_radius_from_series series "linear" min_r max_r clip_pct,
      r = (min_r + max_r) / 2 := by
  have h1 : imputed series ≠ [] := imputed_ne_nil hne
  have hc2 : ∀ x ∈ clipped (imputed series) clip_pct, x = c := clipped_all_const h1 hc clip_pct
  have h2 : clipped (imputed series) clip_pct ≠ [] := clipped_ne_nil h1 clip_pct
  have hmn : listMin (clipped (imputed series) clip_pct) = c := hc2 _ (listMin_mem h2)
  have hmx : listMax (clipped (imputed series) clip_pct) = c := hc2 _ (listMax_mem h2)
  intro r hr
  rw [compute_radius_eq_map] at hr
  rcases List.mem_map.mp hr with ⟨v, hv, rfl⟩
  unfold radiusMap normOne
  rw [if_neg (show ¬(("linear" : String) = "log") by decide),
    if_neg (by rw [hmn, hmx, sub_self]; exact lt_irrefl 0)]
  ring

theorem all_equal_linear_radius_midpoint_witness :
    ((19 / 2 : ℝ) ∈ compute_radius_from_series [some 7, none] "linear" 3 16 2) ∧
      (19 / 2 : ℝ) = (3 + 16) / 2 := by
  have hfv : fillValue [some 7, none] = 7 := by
    simp [fillValue, median, sortedAsc, List.insertionSort]
  have h1 : imputed [some 7, none] = [7, 7] := by simp [imputed, hfv]
  have hcp : (0 : ℚ) < 2 ∧ (2 : ℚ) < 50 := by norm_num
  have hall : ∀ x ∈ [(7 : ℚ), 7], x = 7 := by simp
  have hq1 : quantile [(7 : ℚ), 7] (2 / 100) = 7 :=
    quantile_const (by simp) (by norm_num) hall
  have hq2 : quantile [(7 : ℚ), 7] (1 - 2 / 100) = 7 :=
    quantile_const (by simp) (by norm_num) hall
  have h2 : clipped [7, 7] 2 = [7, 7] := by
    rw [clipped_eq_map]
    simp only [clipOne, if_pos hcp, hq1, hq2, clamp, List.map_cons, List.map_nil]
    simp
  have hd : listMax [(7 : ℚ), 7] - listMin [(7 : ℚ), 7] = 0 := by simp [listMax, listMin]
  have hm : (19 / 2 : ℝ) ∈ compute_radius_from_series [some 7, none] "linear" 3 16 2 := by
    simp only [compute_radius_from_series, h1, h2, hd,
      if_neg (show ¬(("linear" : String) = "log") by decide)]
    rw [if_neg (lt_irrefl (0 : ℚ))]
    simp only [List.map_cons, List.map_nil, List.mem_cons]
    norm_num
  exact ⟨hm,
    all_equal_linear_radius_midpoint [some 7, none] 7 3 16 2 (by simp)
      (by rw [h1]; simp) (19 / 2) hm⟩

/-- C6: any `clip_pct` outside the open interval `(0, 50)` (e.g. `0` or `60`)
disables clipping: the output equals that of the variant with the clipping step
removed entirely. -/
theorem clip_pct_outside_range_disables_clipping (series : List (Option ℚ)) (scale : String)
    (min_r max_r : ℝ) (clip_pct : ℚ) (h : clip_pct ≤ 0 ∨ 50 ≤ clip_pct) :
    compute_radius_from_series series scale min_r max_r clip_pct =
      compute_radius_noclip series scale min_r max_r := by
  have hcl : clipped (imputed series) clip_pct = imputed series := by
    unfold clipped
    rw [if_neg]
    rintro ⟨h1, h2⟩
    rcases h with h | h <;> linarith
  simp only [compute_radius_from_series, compute_radius_noclip, hcl]

theorem clip_pct_outside_range_disables_clipping_witness :
    compute_radius_from_series [some 1, some 2] "linear" 0 1 60 =
        compute_radius_noclip [some 1, some 2] "linear" 0 1 ∧
      compute_radius_from_series [some 1, some 2] "log" 0 1 0 =
        compute_radius_noclip [some 1, some 2] "log" 0 1 :=
  ⟨clip_pct_outside_range_disables_clipping [some 1, some 2] "linear" 0 1 60
      (Or.inr (by norm_num)),
    clip_pct_outside_range_disables_clipping [some 1, some 2] "log" 0 1 0
      (Or.inl (by norm_num))⟩

/-- C7: on the empty input sequence, `compute_radius_from_series` returns the
empty sequence, for every scale, `clip_pct`, `min_r`, `max_r`. -/
theorem empty_series_empty_output (scale : String) (min_r max_r : ℝ) (clip_pct : ℚ) :
    compute_radius_from_series [] scale min_r max_r clip_pct = [] := by
  rw [compute_radius_eq_map]
  simp [imputed]

/-- C8: every scale other than `"log"` (including invalid ones) falls through to
the linear branch: the output equals that of `scale = "linear"`. -/
theorem non_log_scale_same_as_linear (series : List (Option ℚ)) (scale : String)
    (min_r max_r : ℝ) (clip_pct : ℚ) (h : scale ≠ "log") :
    compute_radius_from_series series scale min_r max_r clip_pct =
      compute_radius_from_series series "linear" min_r max_r clip_pct := by
  simp only [compute_radius_from_series, if_neg h,
    if_neg (show ¬(("linear" : String) = "log") by decide)]

theorem non_log_scale_same_as_linear_witness :
    compute_radius_from_series [some 1, some 2] "sqrt" 3 16 2 =
      compute_radius_from_series [some 1, some 2] "linear" 3 16 2 :=
  non_log_scale_same_as_linear [some 1, some 2] "sqrt" 3 16 2 (by decide)

/-- C9: the output sequence has the same length as the input, and the radius at
position `i` is the per-element radius map applied to the imputed value at
position `i`. -/
theorem output_length_and_positionwise (series : List (Option ℚ)) (scale : String)
    (min_r max_r : ℝ) (clip_pct : ℚ) :
    (compute_radius_from_series series scale min_r max_r clip_pct).length = series.length ∧
      ∀ i : ℕ, i < series.length →
        (compute_radius_from_series series scale min_r max_r clip_pct).getD i 0 =
          radiusMap series scale min_r max_r clip_pct ((imputed series).getD i 0) := by
  rw [compute_radius_eq_map]
  refine ⟨by rw [List.length_map, length_imputed], ?_⟩
  intro i hi
  have hi1 : i < (imputed series).length := by rw [length_imputed]; exact hi
  have hi2 : i < ((imputed series).map (radiusMap series scale min_r max_r clip_pct)).length := by
    rw [List.length_map]; exact hi1
  rw [List.getD_eq_getElem _ _ hi2, List.getElem_map, List.getD_eq_getElem _ _ hi1]

theorem output_length_and_positionwise_witness :
    (compute_radius_from_series [some 10, none] "log" 3 16 2).length = 2 ∧
      (compute_radius_from_series [some 10, none] "log" 3 16 2).getD 1 0 =
        radiusMap [some 10, none] "log" 3 16 2 ((imputed [some 10, none]).getD 1 0) :=
  ⟨(output_length_and_positionwise [some 10, none] "log" 3 16 2).1,
    (output_length_and_positionwise [some 10, none] "log" 3 16 2).2 1 (by norm_num)⟩

/-- C10: the per-position mapping is monotone — if the imputed value at
position `i` is at most the one at position `j`, the radius at `i` is at most
the radius at `j` (given `min_r ≤ max_r`). -/
theorem radius_monotone_in_imputed (series : List (Option ℚ)) (scale : String)
    (min_r max_r : ℝ) (clip_pct : ℚ) (hmm : min_r ≤ max_r) {i j : ℕ}
    (hi : i < series.length) (hj : j < series.length)
    (hij : (imputed series).getD i 0 ≤ (imputed series).getD j 0) :
    (compute_radius_from_series series scale min_r max_r clip_pct).getD i 0 ≤
      (compute_radius_from_series series scale min_r max_r clip_pct).getD j 0 := by
  rw [compute_radius_eq_map]
  have hi1 : i < (imputed series).length := by rw [length_imputed]; exact hi
  have hj1 : j < (imputed series).length := by rw [length_imputed]; exact hj
  have hi2 : i < ((imputed series).map (radiusMap series scale min_r max_r clip_pct)).length := by
    rw [List.length_map]; exact hi1
  have hj2 : j < ((imputed series).map (radiusMap series scale min_r max_r clip_pct)).length := by
    rw [List.length_map]; exact hj1
  rw [List.getD_eq_getElem _ _ hi2, List.getD_eq_getElem _ _ hj2, List.getElem_map,
    List.getElem_map]
  rw [List.getD_eq_getElem _ _ hi1, List.getD_eq_getElem _ _ hj1] at hij
  unfold radiusMap
  have hnorm := normOne_mono (clipOne_mem_clipped (List.getElem_mem hi1) clip_pct)
    (clipOne_mono (imputed series) clip_pct hij) scale
  nlinarith [hnorm]

theorem radius_monotone_in_imputed_witness :
    (compute_radius_from_series [some 1, some 2] "linear" 3 16 0).getD 0 0 ≤
      (compute_radius_from_series [some 1, some 2] "linear" 3 16 0).getD 1 0 :=
  radius_monotone_in_imputed [some 1, some 2] "linear" 3 16 0 (by norm_num)
    (by norm_num) (by norm_num) (by norm_num [imputed])

theorem imputed_c5 : imputed [some 1, some 2, some 3, some 100] = [1, 2, 3, 100] := by
  simp [imputed]

theorem sortedAsc_c5 : sortedAsc [(1 : ℚ), 2, 3, 100] = [1, 2, 3, 100] :=
  List.Sorted.insertionSort_eq (by norm_num [List.sorted_cons])

theorem quantile_c5_lo : quantile [(1 : ℚ), 2, 3, 100] (2 / 100) = 53 / 50 := by
  simp only [quantile, sortedAsc_c5, List.length_cons, List.length_nil]
  norm_num [List.getD_cons_zero, List.getD_cons_succ]

theorem quantile_c5_hi : quantile [(1 : ℚ), 2, 3, 100] (1 - 2 / 100) = 4709 / 50 := by
  simp only [quantile, sortedAsc_c5, List.length_cons, List.length_nil]
  norm_num [List.getD_cons_zero, List.getD_cons_succ]
  simp only [Int.reduceToNat]
  norm_num

theorem clipped_c5 : clipped [(1 : ℚ), 2, 3, 100] 2 = [53 / 50, 2, 3, 4709 / 50] := by
  rw [clipped_eq_map]
  simp only [clipOne, if_pos (show (0 : ℚ) < 2 ∧ (2 : ℚ) < 50 by norm_num),
    quantile_c5_lo, quantile_c5_hi, clamp, List.map_cons, List.map_nil]
  norm_num [min_def, max_def]

theorem radius_c5 :
    (compute_radius_from_series [some 1, some 2, some 3, some 100] "linear" 1 10 2).getD 3 0 =
      10 := by
  have hmn : listMin [(53 / 50 : ℚ), 2, 3, 4709 / 50] = 53 / 50 := by
    norm_num [listMin, min_def]
  have hmx : listMax [(53 / 50 : ℚ), 2, 3, 4709 / 50] = 4709 / 50 := by
    norm_num [listMax, max_def]
  simp only [compute_radius_from_series, imputed_c5, clipped_c5, hmn, hmx,
    if_neg (show ¬(("linear" : String) = "log") by decide),
    if_pos (show (0 : ℚ) < 4709 / 50 - 53 / 50 by norm_num), List.map_cons, List.map_nil]
  norm_num [List.getD_cons_zero, List.getD_cons_succ]

theorem radius_noclip_c5 :
    (compute_radius_noclip [some 1, some 2, some 3, some 100] "linear" 1 10).getD 3 0 = 10 := by
  have hmn : listMin [(1 : ℚ), 2, 3, 100] = 1 := by norm_num [listMin, min_def]
  have hmx : listMax [(1 : ℚ), 2, 3, 100] = 100 := by norm_num [listMax, max_def]
  simp only [compute_radius_noclip, imputed_c5, hmn, hmx,
    if_neg (show ¬(("linear" : String) = "log") by decide),
    if_pos (show (0 : ℚ) < 100 - 1 by norm_num), List.map_cons, List.map_nil]
  norm_num [List.getD_cons_zero, List.getD_cons_succ]

/-- C5 counterexample: for input `[1, 2, 3, 100]` with `clip_pct = 2`,
`scale = "linear"`, `min_r = 1`, `max_r = 10`, the radius computed for the
entry `100` is NOT strictly less than the unclipped-linear radius — the entry
is the batch maximum before and after clipping, so both radii equal `10`. -/
theorem clip_extreme_radius_not_less :
    ¬ ((compute_radius_from_series [some 1, some 2, some 3, some 100] "linear" 1 10 2).getD 3 0 <
        (compute_radius_noclip [some 1, some 2, some 3, some 100] "linear" 1 10).getD 3 0) := by
  rw [radius_c5, radius_noclip_c5]
  exact lt_irrefl 10

/-- C5 (amended): after winsorization the maximum contributing value is below
`100` (the clipped value of the `100` entry is `4709/50 = 94.18 < 100`), but the
radius computed for that entry equals the unclipped-linear radius: both are
`10 = max_r`. -/
theorem clip_reduces_extreme_value_but_radius_unchanged :
    (clipped (imputed [some 1, some 2, some 3, some 100]) 2).getD 3 0 < 100 ∧
      (compute_radius_from_series [some 1, some 2, some 3, some 100] "linear" 1 10 2).getD 3 0 =
        (compute_radius_noclip [some 1, some 2, some 3, some 100] "linear" 1 10).getD 3 0 := by
  constructor
  · rw [imputed_c5, clipped_c5]
    norm_num [List.getD_cons_zero, List.getD_cons_succ]
  · rw [radius_c5, radius_noclip_c5]

theorem sorted_getElem_mono {ys : List ℚ} (hs : List.Sorted (· ≤ ·) ys) {a b : ℕ}
    (hab : a ≤ b) (hb : b < ys.length) : ys[a] ≤ ys[b] := by
  have := @List.Sorted.rel_get_of_le ℚ (fun x y => x ≤ y) _ ys hs
    ⟨a, lt_of_le_of_lt hab hb⟩ ⟨b, hb⟩ hab
  simpa using this

theorem sorted_getD_mono {ys : List ℚ} (hs : List.Sorted (· ≤ ·) ys) {a b : ℕ}
    (hab : a ≤ b) (hb : b < ys.length) : ys.getD a 0 ≤ ys.getD b 0 := by
  rw [List.getD_eq_getElem _ _ (lt_of_le_of_lt hab hb), List.getD_eq_getElem _ _ hb]
  exact sorted_getElem_mono hs hab hb

theorem median_perm {l l' : List ℚ} (h : l.Perm l') : median l = median l' := by
  have hs : sortedAsc l = sortedAsc l' :=
    List.eq_of_perm_of_sorted ((sortedAsc_perm l).trans (h.trans (sortedAsc_perm l').symm))
      (sortedAsc_sorted l) (sortedAsc_sorted l')
  unfold median
  rw [hs, h.length_eq]

theorem median_cons_median {l : List ℚ} (hne : l ≠ []) : median (median l :: l) = median l := by
  have hsorted : List.Sorted (· ≤ ·) (sortedAsc l) := sortedAsc_sorted l
  have hn : 0 < l.length := List.length_pos.mpr hne
  set n := l.length with hndef
  set m := median l with hm
  set ys := sortedAsc l with hys
  have hlen : ys.length = n := length_sortedAsc l
  set p : ℚ → Bool := fun b => decide ¬m ≤ b with hp
  have hzs : sortedAsc (m :: l) = ys.takeWhile p ++ m :: ys.dropWhile p := by
    rw [show sortedAsc (m :: l) = List.orderedInsert (· ≤ ·) m ys from rfl]
    exact List.orderedInsert_eq_take_drop (· ≤ ·) m ys
  set j := (ys.takeWhile p).length with hjdef
  have htwdw := List.takeWhile_append_dropWhile p ys
  have hjn : j ≤ ys.length := by
    have := congrArg List.length htwdw
    simp only [List.length_append] at this
    omega
  have hdw : ys.dropWhile p = ys.drop j := by
    have h0 := @List.drop_left' ℚ (ys.takeWhile p) (ys.dropWhile p) j hjdef.symm
    rw [htwdw] at h0
    exact h0.symm
  have hltD : ∀ k, k < j → ys.getD k 0 < m := by
    intro k hk
    have hky : k < ys.length := lt_of_lt_of_le hk hjn
    have hktw : k < (ys.takeWhile p).length := hk.trans_le (le_of_eq hjdef.symm)
    have h1 : (ys.takeWhile p)[k] = ys[k] := (List.takeWhile_prefix p).getElem hktw
    have h2 : p ((ys.takeWhile p)[k]) = true :=
      List.mem_takeWhile_imp (List.getElem_mem hk)
    rw [h1] at h2
    simp only [hp, decide_eq_true_eq] at h2
    rw [List.getD_eq_getElem _ _ hky]
    exact not_le.mp h2
  have hgeD : j < ys.length → m ≤ ys.getD j 0 := by
    intro hjlt
    have hne2 : ys.dropWhile p ≠ [] := by
      rw [hdw, ne_eq, List.drop_eq_nil_iff]
      omega
    have h1 := List.head_dropWhile_not p ys hne2
    have h2 : (ys.dropWhile p).head hne2 = ys[j] := by
      have h3 : ys.drop j = ys[j] :: ys.drop (j + 1) := List.drop_eq_getElem_cons hjlt
      simp only [hdw, h3, List.head_cons]
    rw [h2] at h1
    simp only [hp, decide_eq_false_iff_not, not_not] at h1
    rw [List.getD_eq_getElem _ _ hjlt]
    exact h1
  have hz2 : (ys.takeWhile p ++ m :: ys.dropWhile p).getD j 0 = m := by
    rw [List.getD_append_right _ _ _ _ (le_of_eq hjdef.symm)]
    simp only [← hjdef, Nat.sub_self, List.getD_cons_zero]
  have hz3 : ∀ k, j < k → k ≤ n →
      (ys.takeWhile p ++ m :: ys.dropWhile p).getD k 0 = ys.getD (k - 1) 0 := by
    intro k hjk hkn
    rw [List.getD_append_right _ _ _ _ (by rw [← hjdef]; omega)]
    have e : k - j = k - j - 1 + 1 := by omega
    rw [← hjdef, e, List.getD_cons_succ, hdw]
    have h1 : k - j - 1 < (ys.drop j).length := by
      rw [List.length_drop, hlen]
      omega
    have h2 : k - 1 < ys.length := by rw [hlen]; omega
    rw [List.getD_eq_getElem _ _ h1, List.getElem_drop, List.getD_eq_getElem _ _ h2]
    simp only [show j + (k - j - 1) = k - 1 from by omega]
  unfold median
  simp only [List.length_cons, hzs, ← hys, ← hndef]
  by_cases hpar : n % 2 = 1
  · rw [if_neg (by omega)]
    set k := n / 2 with hk
    have e1 : (n + 1) / 2 - 1 = k := by omega
    have e2 : (n + 1) / 2 = k + 1 := by omega
    rw [e1, e2]
    have hkn : k < n := by omega
    have hmk : m = ys.getD k 0 := by
      rw [hm]
      unfold median
      rw [if_pos (by rw [← hndef]; exact hpar), ← hys, ← hndef, ← hk]
    have hjk : j ≤ k := by
      by_contra hcon
      push_neg at hcon
      have := hltD k hcon
      rw [← hmk] at this
      exact lt_irrefl m this
    have hzk1 : (ys.takeWhile p ++ m :: ys.dropWhile p).getD (k + 1) 0 = m := by
      rw [hz3 (k + 1) (by omega) (by omega)]
      simpa using hmk.symm
    have hzk : (ys.takeWhile p ++ m :: ys.dropWhile p).getD k 0 = m := by
      rcases eq_or_lt_of_le hjk with hjk' | hjk'
      · rw [← hjk']
        exact hz2
      · rw [hz3 k hjk' (by omega)]
        apply le_antisymm
        · calc ys.getD (k - 1) 0 ≤ ys.getD k 0 :=
                sorted_getD_mono hsorted (by omega) (by rw [hlen]; omega)
            _ = m := hmk.symm
        · calc m ≤ ys.getD j 0 := hgeD (by rw [hlen]; omega)
            _ ≤ ys.getD (k - 1) 0 := sorted_getD_mono hsorted (by omega) (by rw [hlen]; omega)
    rw [hzk, hzk1]
    ring
  · rw [if_pos (by omega)]
    have hpar0 : n % 2 = 0 := by omega
    have hn2 : 2 ≤ n := by omega
    set k := n / 2 with hk
    have e2 : (n + 1) / 2 = k := by omega
    rw [e2]
    have hk1 : 1 ≤ k := by omega
    have hkn : k < n := by omega
    have hmk : m = (ys.getD (k - 1) 0 + ys.getD k 0) / 2 := by
      rw [hm]
      unfold median
      rw [if_neg (by rw [← hndef]; omega), ← hys, ← hndef, ← hk]
    have hsort2 : ys.getD (k - 1) 0 ≤ ys.getD k 0 :=
      sorted_getD_mono hsorted (by omega) (by rw [hlen]; omega)
    have hle1 : ys.getD (k - 1) 0 ≤ m := by rw [hmk]; linarith
    have hle2 : m ≤ ys.getD k 0 := by rw [hmk]; linarith
    have hjk : j ≤ k := by
      by_contra hcon
      push_neg at hcon
      have := hltD k hcon
      exact absurd hle2 (not_le.mpr this)
    rcases eq_or_lt_of_le hjk with hjk' | hjk'
    · rw [← hjk']
      exact hz2
    · rw [hz3 k hjk' (by omega)]
      apply le_antisymm
      · exact hle1
      · calc m ≤ ys.getD j 0 := hgeD (by rw [hlen]; omega)
          _ ≤ ys.getD (k - 1) 0 := sorted_getD_mono hsorted (by omega) (by rw [hlen]; omega)

theorem filterMap_id_set_perm :
    ∀ (series : List (Option ℚ)) (i : ℕ) (m : ℚ), series.getD i (some 0) = none →
      ((series.set i (some m)).filterMap id).Perm (m :: series.filterMap id)
  | [], i, m, hnone => by simp at hnone
  | a :: t, 0, m, hnone => by
    have ha : a = none := by simpa using hnone
    subst ha
    simp
  | a :: t, i + 1, m, hnone => by
    have ht := filterMap_id_set_perm t i m (by simpa using hnone)
    cases a with
    | none => simpa using ht
    | some b =>
      simp only [List.set_cons_succ, List.filterMap_cons, id]
      exact (ht.cons b).trans (List.Perm.swap m b _)

theorem getD_none_lt_length {series : List (Option ℚ)} {i : ℕ}
    (hnone : series.getD i (some 0) = none) : i < series.length := by
  by_contra h
  push_neg at h
  rw [List.getD_eq_default _ _ h] at hnone
  exact Option.noConfusion hnone

theorem fillValue_set_eq (series : List (Option ℚ)) (i : ℕ)
    (hnone : series.getD i (some 0) = none) :
    fillValue (series.set i (some (fillValue series))) = fillValue series := by
  have hperm := filterMap_id_set_perm series i (fillValue series) hnone
  by_cases hemp : (series.filterMap id).isEmpty
  · have h0 : fillValue series = 0 := by
      simp only [fillValue]
      rw [if_pos hemp]
    have hnil : series.filterMap id = [] := List.isEmpty_iff.mp hemp
    rw [h0] at hperm ⊢
    rw [hnil] at hperm
    have heq : (series.set i (some 0)).filterMap id = [0] := List.perm_singleton.mp hperm
    simp only [fillValue, heq]
    simp [median, sortedAsc, List.insertionSort]
  · have hnil : series.filterMap id ≠ [] := by
      intro h
      rw [h] at hemp
      simp at hemp
    have hmed : fillValue series = median (series.filterMap id) := by
      simp only [fillValue]
      rw [if_neg hemp]
    set fv := fillValue series with hfv
    have hnewne : (series.set i (some fv)).filterMap id ≠ [] := by
      intro h
      have hl := hperm.length_eq
      rw [h] at hl
      simp at hl
    have hmed2 : fillValue (series.set i (some fv)) =
        median ((series.set i (some fv)).filterMap id) := by
      simp only [fillValue]
      rw [if_neg (fun h => hnewne (List.isEmpty_iff.mp h))]
    rw [hmed2]
    calc median ((series.set i (some fv)).filterMap id)
        = median (fv :: series.filterMap id) := median_perm hperm
      _ = median (median (series.filterMap id) :: series.filterMap id) := by rw [hmed]
      _ = median (series.filterMap id) := median_cons_median hnil
      _ = fv := hmed.symm

theorem set_getElem_self {α : Type*} {l : List α} {i : ℕ} {a : α}
    (h : ∀ (hi : i < l.length), l[i] = a) : l.set i a = l := by
  apply List.ext_getElem (by rw [List.length_set])
  intro k h1 h2
  rw [List.getElem_set]
  split
  · next heq =>
    subst heq
    exact (h h2).symm
  · rfl

theorem imputed_set_eq (series : List (Option ℚ)) (i : ℕ)
    (hnone : series.getD i (some 0) = none) :
    imputed (series.set i (some (fillValue series))) = imputed series := by
  have hi : i < series.length := getD_none_lt_length hnone
  unfold imputed
  rw [fillValue_set_eq series i hnone, List.map_set]
  have hval : (some (fillValue series)).getD (fillValue series) = fillValue series := rfl
  rw [hval]
  apply set_getElem_self
  intro hi'
  rw [List.getElem_map]
  rw [List.getD_eq_getElem _ _ hi] at hnone
  rw [hnone]
  rfl

theorem compute_radius_congr {s t : List (Option ℚ)} (h : imputed s = imputed t)
    (scale : String) (min_r max_r : ℝ) (clip_pct : ℚ) :
    compute_radius_from_series s scale min_r max_r clip_pct =
      compute_radius_from_series t scale min_r max_r clip_pct := by
  simp only [compute_radius_from_series, h]

/-- C4: a missing entry of a batch is imputed with the median of the
non-missing entries (or `0` when every entry is missing), and replacing the
missing entry by a literal occurrence of that value leaves the whole radius
output of the batch unchanged (so in particular the missing entry's radius is
exactly what that literal value receives in the same batch). -/
theorem missing_imputed_median_radius (series : List (Option ℚ)) (i : ℕ)
    (hnone : series.getD i (some 0) = none) :
    (imputed series).getD i 0 =
        (if (series.filterMap id).isEmpty then 0 else median (series.filterMap id)) ∧
      ∀ (scale : String) (min_r max_r : ℝ) (clip_pct : ℚ),
        compute_radius_from_series (series.set i (some (fillValue series)))
            scale min_r max_r clip_pct =
          compute_radius_from_series series scale min_r max_r clip_pct := by
  have hi : i < series.length := getD_none_lt_length hnone
  constructor
  · unfold imputed
    have hi' : i < (series.map fun x => x.getD (fillValue series)).length := by
      rw [List.length_map]
      exact hi
    rw [List.getD_eq_getElem _ _ hi', List.getElem_map]
    rw [List.getD_eq_getElem _ _ hi] at hnone
    rw [hnone]
    rfl
  · intro scale min_r max_r clip_pct
    exact compute_radius_congr (imputed_set_eq series i hnone) scale min_r max_r clip_pct

theorem missing_imputed_median_radius_witness :
    (imputed [some 10, some 20, none, some 30]).getD 2 0 =
        (if (([some 10, some 20, none, some 30] : List (Option ℚ)).filterMap id).isEmpty then 0
          else median (([some 10, some 20, none, some 30] : List (Option ℚ)).filterMap id)) ∧
      compute_radius_from_series
          (([some 10, some 20, none, some 30] : List (Option ℚ)).set 2
            (some (fillValue [some 10, some 20, none, some 30]))) "linear" 1 10 2 =
        compute_radius_from_series [some 10, some 20, none, some 30] "linear" 1 10 2 :=
  ⟨(missing_imputed_median_radius [some 10, some 20, none, some 30] 2 rfl).1,
    (missing_imputed_median_radius [some 10, some 20, none, some 30] 2 rfl).2 "linear" 1 10 2⟩

end AvlBusStopViewer
